import Mathlib

/-!
Verification of the MPEG-TS section-table subsystem
(`src/input/mpegts/mpegts_table.c` of tvheadend).

The C file is shallowly embedded below.  Pure validation logic
(`mpegts_table_dispatch`, `mpegts_table_fastswitch`,
`mpegts_table_consistency_check`) becomes pure Lean functions; the stateful
registry operations (`mpegts_table_add`, `mpegts_table_destroy_`,
`mpegts_table_flush_all`) become explicit state-passing functions on a `Mux`
state.  C pointers to table objects are modelled by a `ptr : Nat` identity
field on each `Table`; fresh allocation draws from `Mux.nextPtr`.  Machine
integers that matter (`mt_pid`, `mm_num_tables`, section lengths) are `Int`;
byte values are `Nat`.  The collaborator hooks (`mm_open_table`,
`mm_close_table`), the reference-count release macro and the rate-limited
logger are implemented outside this C file; they are modelled from the spec's
contracts, each marked `Modelled from the spec:` in its doc comment.
Collaborator calls are recorded in an event trace on the state.
-/

namespace MpegtsTable

/-- The multiplex scan state (`mm_scan_state`); the C file only distinguishes
`IDLE`, `ACTIVE` and "anything else" (here `pend`). -/
inductive ScanState where
  | idle
  | pend
  | active
deriving DecidableEq

/-- The behaviour-flag bitset `mt_flags` (`MT_CRC`, `MT_FULL`, `MT_QUICKREQ`,
`MT_FASTSWITCH`, `MT_SKIPSUBS`, `MT_SCANSUBS`, `MT_RECORD`, `MT_FAST`,
`MT_SLOW`, `MT_DEFER`), one `Bool` per distinct bit. -/
structure Flags where
  crc : Bool
  full : Bool
  quickreq : Bool
  fastswitch : Bool
  skipsubs : Bool
  scansubs : Bool
  record : Bool
  fast : Bool
  slow : Bool
  deferFlag : Bool
deriving DecidableEq

/-- The all-clear flag set. -/
def Flags.clear : Flags :=
  ⟨false, false, false, false, false, false, false, false, false, false⟩

/-- One filter unit (`mpegts_table_t`).  `ptr` models the C object's address
(identity); `owner` models the opaque dedupe token `mt_opaque`; `callback`
models the callback function pointer `mt_callback` (compared by identity, so a
`Nat` id); `table` is the table-id pattern `mt_table`, `mask` is `mt_mask`,
`count` is `mt_count` (match counter), `errLog` is `mt_err_log.count`. -/
structure Table where
  ptr : Nat
  name : String
  callback : Nat
  owner : Nat
  pid : Int
  flags : Flags
  table : Nat
  mask : Nat
  cc : Int
  destroyed : Bool
  subscribed : Bool
  working : Bool
  complete : Bool
  count : Nat
  errLog : Nat
  arefcount : Nat
  deferCmd : Nat
deriving DecidableEq

/-- Calls made to the external collaborators, recorded as a trace:
`openT p s` is `mm_open_table` on the table at `p` with subscription flag `s`;
`closeT p` is `mm_close_table`; `release p` is `mpegts_table_release`. -/
inductive Event where
  | openT (ptr : Nat) (subscribe : Bool)
  | closeT (ptr : Nat)
  | release (ptr : Nat)
deriving DecidableEq

/-- The registry state carried by a multiplex (`mpegts_mux_t` as seen from
this file): the live list `mm_tables`, the cached counter `mm_num_tables`,
the deferred queue `mm_defer_tables`, the scan state, an allocation counter
for fresh table identities, and the collaborator-call trace. -/
structure Mux where
  tables : List Table
  numTables : Int
  deferTables : List Table
  scanState : ScanState
  nextPtr : Nat
  events : List Event
deriving DecidableEq

/-- Remove the first list entry whose `ptr` equals `p` (pointer-based list
unlink, `LIST_REMOVE`). -/
def removeByPtr (p : Nat) : List Table → List Table
  | [] => []
  | t :: ts => if t.ptr = p then ts else t :: removeByPtr p ts

/-- Update in place the first list entry whose `ptr` equals `p` (mutation
through a C pointer into the list). -/
def updateByPtr (p : Nat) (f : Table → Table) : List Table → List Table
  | [] => []
  | t :: ts => if t.ptr = p then f t :: ts else t :: updateByPtr p f ts

/-- Whether some list entry has identity `p`. -/
def containsPtr (p : Nat) (ts : List Table) : Bool :=
  ts.any (fun t => t.ptr == p)

/-- The check `mpegts_table_consistency_check`: compare the cached `mm_num_tables` with
the length of the live list (the C version aborts on mismatch under
`ENABLE_TRACE`; here the check is the boolean it tests). -/
def mpegts_table_consistency_check (mm : Mux) : Bool :=
  mm.numTables == (mm.tables.length : Int)

/-- The scan coordinator `mpegts_table_fastswitch`: with the scan active, walk every live table;
tables with neither `MT_QUICKREQ` nor `mt_working` are skipped; any remaining
table that is not complete or still working aborts the walk.  Returns whether
`mpegts_mux_scan_done` is signalled. -/
def mpegts_table_fastswitch (mm : Mux) : Bool :=
  if mm.scanState ≠ ScanState.active then false
  else
    mm.tables.all fun mt =>
      if !mt.flags.quickreq && !mt.working then true
      else !(!mt.complete || mt.working)

/-- Modelled from the spec: the rate-limited logger `tvhlog_limit` (declared
in a header outside this file).  The occurrence counter keeps incrementing
unconditionally; the call reports "log now" only for the first `lim`
occurrences. -/
def tvhlog_limit (c : Nat) (lim : Nat) : Nat × Bool :=
  (c + 1, c < lim)

/-- What one `mpegts_table_dispatch` call did: the table after the call, the
arguments handed to the user callback (`payload bytes`, `length`, `tid`) when
it was invoked, whether `dvb_table_reset` was called, whether a rate-limited
warning line was emitted, and whether `mpegts_table_fastswitch` was invoked. -/
structure DispatchOut where
  mt : Table
  callbackArgs : Option (List Nat × Int × Nat)
  reset : Bool
  warned : Bool
  fastswitchCalled : Bool
deriving DecidableEq

/-- The 12-bit section length dispatch parses from the header:
`((sec[1] & 0x0f) << 8) | sec[2]`, as an `Int` (the C `len` is an `int`). -/
def sectionLen (sec : List Nat) : Int :=
  (((sec.getD 1 0 &&& 0x0f) <<< 8) ||| sec.getD 2 0 : Nat)

/-- The dispatcher `mpegts_table_dispatch sec r mt`, shallowly embedded.  `cb` interprets the
callback function pointer (the callback's return value drives steps 9-10);
`crc` is the external `tvh_crc32 sec r 0xffffffff`.  The section buffer is
`sec` with delivered length `r`; byte reads are `sec.getD i 0`.  Arithmetic on
`len` and `r` is over `Int`, which agrees with the C comparisons whenever
`3 ≤ r` (the buffer carries its 3-byte header). -/
def mpegts_table_dispatch
    (cb : Table → List Nat → Int → Nat → Int)
    (crc : List Nat → Nat → Nat)
    (sec : List Nat) (r : Nat) (mt : Table) : DispatchOut :=
  let chkcrc := mt.flags.crc
  if mt.destroyed then ⟨mt, none, false, false, false⟩
  else
    let tid : Nat := sec.getD 0 0
    let len : Int := sectionLen sec
    if tid = 0x72 then
      if len ≠ (r : Int) - 3 then
        let (c, w) := tvhlog_limit mt.errLog 10
        ⟨{ mt with errLog := c }, none, true, w, false⟩
      else
        ⟨mt, none, true, false, false⟩
    else if chkcrc && crc sec r ≠ 0 then
      let (c, w) := tvhlog_limit mt.errLog 10
      ⟨{ mt with errLog := c }, none, false, w, false⟩
    else if len < (r : Int) - 3 then
      ⟨mt, none, false, false, false⟩
    else if (tid &&& mt.mask) ≠ mt.table then
      ⟨mt, none, false, false, false⟩
    else
      let len := if chkcrc then len - 4 else len
      let payload := if mt.flags.full then sec else sec.drop 3
      let plen : Int := if mt.flags.full then len + 3 else len
      let ret := cb mt payload plen tid
      let mt := if 0 ≤ ret then { mt with count := mt.count + 1 } else mt
      ⟨mt, some (payload, plen, tid),
        false, false, ret = 0 && (mt.flags.quickreq || mt.flags.fastswitch)⟩

/-- Modelled from the spec: the collaborator hook `mm_open_table` (implemented
by the multiplex layer, outside this file).  It must insert the table into
`tables` and increment `mm_num_tables` if the table is newly created, and be
idempotent for rebinds of an existing entry; when subscription is requested it
arranges delivery (here: marks the table subscribed).  The call is recorded in
the trace. -/
def mm_open_table (mm : Mux) (mt : Table) (subscribe : Bool) : Mux :=
  let mm := { mm with events := mm.events ++ [Event.openT mt.ptr subscribe] }
  let sub : Table → Table :=
    fun t => if subscribe then { t with subscribed := true } else t
  if containsPtr mt.ptr mm.tables then
    { mm with tables := updateByPtr mt.ptr sub mm.tables }
  else
    { mm with tables := sub mt :: mm.tables, numTables := mm.numTables + 1 }

/-- Modelled from the spec: the collaborator hook `mm_close_table`
(implemented outside this file).  It removes the table from `tables`,
decrements `mm_num_tables`, and stops delivery of further sections.  The call
is recorded in the trace. -/
def mm_close_table (mm : Mux) (p : Nat) : Mux :=
  let mm := { mm with events := mm.events ++ [Event.closeT p] }
  if containsPtr p mm.tables then
    { mm with tables := removeByPtr p mm.tables, numTables := mm.numTables - 1 }
  else mm

/-- Modelled from the spec: `mpegts_table_release` (a reference-count macro
declared outside this file) decrements the table's reference count and frees
it at zero via `mpegts_table_release_`.  The registry membership state is
unaffected; the call is recorded in the trace. -/
def mpegts_table_release (mm : Mux) (p : Nat) : Mux :=
  { mm with events := mm.events ++ [Event.release p] }

/-- The teardown `mpegts_table_destroy_` (lock already held): consistency check, set the
tombstone `mt_destroyed`, ask the collaborator to close the hardware filter
(which unlinks the entry and decrements the counter), consistency check,
release the registry's reference. -/
def mpegts_table_destroy_ (mm : Mux) (p : Nat) : Mux :=
  let mm := { mm with
    tables := updateByPtr p (fun t => { t with destroyed := true }) mm.tables }
  let mm := mm_close_table mm p
  mpegts_table_release mm p

/-- The public `mpegts_table_destroy`: take the lock, run `mpegts_table_destroy_`. -/
def mpegts_table_destroy (mm : Mux) (p : Nat) : Mux :=
  mpegts_table_destroy_ mm p

/-- The argument tuple of `mpegts_table_add` (everything after the mux). -/
structure AddArgs where
  tableid : Nat
  mask : Nat
  callback : Nat
  owner : Nat
  name : String
  flags : Flags
  pid : Int
deriving DecidableEq

/-- The `LIST_FOREACH` dedupe scan of `mpegts_table_add`, one list entry at a
time, in list order.  `none` means the loop fell through (no match); `some`
returns the updated mux and the matched entry as returned to the caller.
The three branches mirror the C: unbound entry (`mt_pid < 0`) with matching
name is rebound in place and reopened with forced resubscription; a bound
entry is matched by pid and callback when the requested `pid ≥ 0`, or by name
(with an optional resubscribe) when the requested `pid < 0`. -/
def addScan (mm : Mux) (a : AddArgs) : List Table → Option (Mux × Table)
  | [] => none
  | mt :: rest =>
    if mt.owner ≠ a.owner then addScan mm a rest
    else if mt.pid < 0 then
      if mt.name ≠ a.name then addScan mm a rest
      else
        let mt' := { mt with callback := a.callback, pid := a.pid,
                             table := a.tableid }
        let mm' := { mm with
          tables := updateByPtr mt.ptr (fun _ => mt') mm.tables }
        let mm' := mm_open_table mm' mt' true
        some (mm', ((mm'.tables.find? (fun t => t.ptr == mt.ptr)).getD mt'))
    else if 0 ≤ a.pid then
      if mt.pid ≠ a.pid then addScan mm a rest
      else if mt.callback ≠ a.callback then addScan mm a rest
      else some (mm, mt)
    else
      if mt.name ≠ a.name then addScan mm a rest
      else if !a.flags.skipsubs && !mt.subscribed then
        let mm' := mm_open_table mm mt true
        some (mm', ((mm'.tables.find? (fun t => t.ptr == mt.ptr)).getD mt))
      else some (mm, mt)

/-- The registration `mpegts_table_add`: under the lock, scan for an existing entry; if none
matched, allocate a fresh table (`calloc`, refcount 1, `mt_cc = -1`, the two
subscription-control bits stripped from the stored flags), compute the initial
subscription decision, and hand the new table to `mm_open_table`. -/
def mpegts_table_add (mm : Mux) (a : AddArgs) : Mux × Table :=
  match addScan mm a mm.tables with
  | some r => r
  | none =>
    let mt : Table := {
      ptr := mm.nextPtr
      name := a.name
      callback := a.callback
      owner := a.owner
      pid := a.pid
      flags := { a.flags with skipsubs := false, scansubs := false }
      table := a.tableid
      mask := a.mask
      cc := -1
      destroyed := false
      subscribed := false
      working := false
      complete := false
      count := 0
      errLog := 0
      arefcount := 1
      deferCmd := 0 }
    let subscribe : Bool :=
      if a.pid < 0 then false
      else if a.flags.skipsubs then false
      else if a.flags.scansubs && mm.scanState = ScanState.idle then false
      else true
    let mm' := mm_open_table { mm with nextPtr := mm.nextPtr + 1 } mt subscribe
    (mm', ((mm'.tables.find? (fun t => t.ptr == mt.ptr)).getD mt))

/-- The deferred-queue drain loop of `mpegts_table_flush_all`: while the
deferred queue is non-empty, unlink its first entry, clear its pending
command, and release it directly — `mm_close_table` is never invoked here.
Each iteration unlinks the queue head, so the loop runs exactly
`|deferTables|` iterations; that bound is the structural fuel. -/
def drainDeferGo : Nat → Mux → Mux
  | 0, mm => mm
  | fuel + 1, mm =>
    match mm.deferTables with
    | [] => mm
    | mt :: rest =>
      let mm' := { mm with
        deferTables := rest
        tables :=
          updateByPtr mt.ptr (fun t => { t with deferCmd := 0 }) mm.tables }
      drainDeferGo fuel (mpegts_table_release mm' mt.ptr)

/-- The deferred-queue drain loop, started with its exact iteration count. -/
def drainDefer (mm : Mux) : Mux :=
  drainDeferGo mm.deferTables.length mm

/-- The live-list teardown loop of `mpegts_table_flush_all`: while `tables`
is non-empty, clear `MT_DEFER` on the first entry (forcing unconditional
destruction) and destroy it.  Each iteration provably unlinks the head, so
the loop runs at most `|tables|` iterations; that bound is the structural
fuel of this embedding. -/
def flushLiveGo : Nat → Mux → Mux
  | 0, mm => mm
  | fuel + 1, mm =>
    match mm.tables with
    | [] => mm
    | mt :: rest =>
      let mm' := { mm with
        tables := { mt with flags := { mt.flags with deferFlag := false } }
          :: rest }
      flushLiveGo fuel (mpegts_table_destroy_ mm' mt.ptr)

/-- The bulk teardown `mpegts_table_flush_all`: after the external
`descrambler_flush_tables` call-out (no registry effect), drain the deferred
queue, then destroy every remaining live table.  The C function then asserts
`mm_num_tables == 0` and both collections empty. -/
def mpegts_table_flush_all (mm : Mux) : Mux :=
  let mm := drainDefer mm
  flushLiveGo mm.tables.length mm

/-- One registry management operation, for stating trace invariants. -/
inductive Op where
  | add (a : AddArgs)
  | destroy (p : Nat)
  | flushAll
deriving DecidableEq

/-- Apply one management operation to the registry state. -/
def applyOp (mm : Mux) : Op → Mux
  | Op.add a => (mpegts_table_add mm a).1
  | Op.destroy p => mpegts_table_destroy mm p
  | Op.flushAll => mpegts_table_flush_all mm

/-- Apply a sequence of management operations, first one first. -/
def applyOps (mm : Mux) : List Op → Mux
  | [] => mm
  | op :: ops => applyOps (applyOp mm op) ops

/-- A sample callback and CRC interpretation, and sample states, used by the
concrete witnesses below. -/
def cbZero : Table → List Nat → Int → Nat → Int := fun _ _ _ _ => 0

/-- A CRC interpretation that reports every buffer as corrupt (non-zero). -/
def crcBad : List Nat → Nat → Nat := fun _ _ => 1

/-- A CRC interpretation that reports every buffer as valid (zero). -/
def crcOk : List Nat → Nat → Nat := fun _ _ => 0

/-- The empty registry state. -/
def muxEmpty : Mux := ⟨[], 0, [], ScanState.idle, 0, []⟩

/-- A live sample table bound to pid 5, no flags. -/
def tSample : Table :=
  ⟨0, "t", 0, 0, 5, Flags.clear, 0, 0xff, -1,
    false, true, false, false, 0, 0, 1, 0⟩

/-- A quick-required table that has completed its scan requirement. -/
def tQuickDone : Table :=
  { tSample with ptr := 0, flags := { Flags.clear with quickreq := true },
                 complete := true }

/-- A quick-required table that has not yet completed. -/
def tQuickPending : Table :=
  { tSample with ptr := 1, flags := { Flags.clear with quickreq := true },
                 complete := false }

/-- A mux in active scan with two quick-required tables, only one complete. -/
def muxTwoQuick : Mux :=
  ⟨[tQuickDone, tQuickPending], 2, [], ScanState.active, 2, []⟩

/-- The collaborator calls the destroy path makes for each table it tears
down: a `close_table` followed by a `release`. -/
def destroyEvents (ts : List Table) : List Event :=
  ts.flatMap fun t => [Event.closeT t.ptr, Event.release t.ptr]

/-- A registry with one live and one deferred table, for the flush witness. -/
def muxFlushEx : Mux :=
  ⟨[{ tSample with ptr := 0 }], 1, [{ tSample with ptr := 5 }],
    ScanState.idle, 6, []⟩

/-- Two live tables collide for the dedupe invariant: same owner and either
the same bound pid with the same callback, or both unbound with the same
name. -/
def conflict (s t : Table) : Prop :=
  s.owner = t.owner ∧
    ((0 ≤ s.pid ∧ s.pid = t.pid ∧ s.callback = t.callback) ∨
     (s.pid < 0 ∧ t.pid < 0 ∧ s.name = t.name))

/-- Dedupe uniqueness: no two live tables of the registry collide. -/
def conflictFree (mm : Mux) : Prop :=
  mm.tables.Pairwise fun s t => ¬ conflict s t

/-- No live table is an unbound same-owner same-name rebind target for the
given add arguments. -/
def noUnboundMatch (mm : Mux) (a : AddArgs) : Prop :=
  ∀ t ∈ mm.tables, ¬ (t.owner = a.owner ∧ t.pid < 0 ∧ t.name = a.name)

/-- Apply a sequence of `add` calls, first one first. -/
def applyAdds (mm : Mux) : List AddArgs → Mux
  | [] => mm
  | a :: rest => applyAdds (mpegts_table_add mm a).1 rest

/-- Along the whole sequence, no call meets an unbound rebind target. -/
def NoRebindSeq (mm : Mux) : List AddArgs → Prop
  | [] => True
  | a :: rest =>
      noUnboundMatch mm a ∧ NoRebindSeq (mpegts_table_add mm a).1 rest

/-! ### Theorems -/

/-- C4: dispatching a section to a `Table` already marked `destroyed` is a
no-op: the callback is not invoked, fastswitch is not invoked, reassembly
state is not reset, nothing is logged, and the table (in particular
`mt_count` and the error-log counter) is returned unchanged. -/
theorem dispatch_destroyed_noop
    (cb : Table → List Nat → Int → Nat → Int) (crc : List Nat → Nat → Nat)
    (sec : List Nat) (r : Nat) (mt : Table) (h : mt.destroyed = true) :
    mpegts_table_dispatch cb crc sec r mt = ⟨mt, none, false, false, false⟩ := by
  simp [mpegts_table_dispatch, h]

/-- Witness for `dispatch_destroyed_noop` at a concrete destroyed table. -/
theorem dispatch_destroyed_noop_witness :
    mpegts_table_dispatch cbZero crcOk [0, 0, 2, 9, 9] 5
        { tSample with destroyed := true } =
      ⟨{ tSample with destroyed := true }, none, false, false, false⟩ :=
  dispatch_destroyed_noop cbZero crcOk [0, 0, 2, 9, 9] 5
    { tSample with destroyed := true } (by decide)

/-- C3: for a table requiring CRC validation, a non-stuffing section whose
delivered bytes have non-zero MPEG CRC-32 is never forwarded: the callback is
not invoked and `mt_count` is unchanged. -/
theorem dispatch_crc_gate
    (cb : Table → List Nat → Int → Nat → Int) (crc : List Nat → Nat → Nat)
    (sec : List Nat) (r : Nat) (mt : Table)
    (hcrc : mt.flags.crc = true)
    (hstuff : sec.getD 0 0 ≠ 0x72)
    (hbad : crc sec r ≠ 0) :
    (mpegts_table_dispatch cb crc sec r mt).callbackArgs = none ∧
    (mpegts_table_dispatch cb crc sec r mt).mt.count = mt.count := by
  have hs : sec[0]?.getD 0 ≠ 0x72 := by simpa using hstuff
  by_cases hd : mt.destroyed <;>
    simp [mpegts_table_dispatch, hd, hcrc, hs, hbad, tvhlog_limit]

/-- Witness for `dispatch_crc_gate`: a concrete CRC-checked table and a
section whose CRC comes out non-zero. -/
theorem dispatch_crc_gate_witness :
    (mpegts_table_dispatch cbZero crcBad [0, 0, 6, 9, 9, 0, 0, 0, 0] 9
        { tSample with flags := { Flags.clear with crc := true } }).callbackArgs
      = none ∧
    (mpegts_table_dispatch cbZero crcBad [0, 0, 6, 9, 9, 0, 0, 0, 0] 9
        { tSample with flags := { Flags.clear with crc := true } }).mt.count
      = ({ tSample with flags := { Flags.clear with crc := true } } : Table).count :=
  dispatch_crc_gate cbZero crcBad [0, 0, 6, 9, 9, 0, 0, 0, 0] 9
    { tSample with flags := { Flags.clear with crc := true } }
    (by decide) (by decide) (by decide)

/-- C10: the CRC gate runs before the mask check: a CRC-checked, non-stuffing
section with bad CRC on a live table is dropped and the table's rate-limited
error counter advances even when the section's table id does not match this
filter's mask/pattern. -/
theorem dispatch_crc_before_mask
    (cb : Table → List Nat → Int → Nat → Int) (crc : List Nat → Nat → Nat)
    (sec : List Nat) (r : Nat) (mt : Table)
    (hd : mt.destroyed = false)
    (hcrc : mt.flags.crc = true)
    (hstuff : sec.getD 0 0 ≠ 0x72)
    (hbad : crc sec r ≠ 0)
    (hmask : sec.getD 0 0 &&& mt.mask ≠ mt.table) :
    (mpegts_table_dispatch cb crc sec r mt).callbackArgs = none ∧
    (mpegts_table_dispatch cb crc sec r mt).mt.errLog = mt.errLog + 1 := by
  have hs : sec[0]?.getD 0 ≠ 0x72 := by simpa using hstuff
  simp [mpegts_table_dispatch, hd, hcrc, hs, hbad, tvhlog_limit]

/-- Witness for `dispatch_crc_before_mask`: the section's table id `0x03`
does not match the filter pattern `0x00` under mask `0xff`, yet the bad CRC
still advances the error counter. -/
theorem dispatch_crc_before_mask_witness :
    (mpegts_table_dispatch cbZero crcBad [3, 0, 6, 9, 9, 0, 0, 0, 0] 9
        { tSample with flags := { Flags.clear with crc := true } }).callbackArgs
      = none ∧
    (mpegts_table_dispatch cbZero crcBad [3, 0, 6, 9, 9, 0, 0, 0, 0] 9
        { tSample with flags := { Flags.clear with crc := true } }).mt.errLog
      = ({ tSample with flags := { Flags.clear with crc := true } } : Table).errLog + 1 :=
  dispatch_crc_before_mask cbZero crcBad [3, 0, 6, 9, 9, 0, 0, 0, 0] 9
    { tSample with flags := { Flags.clear with crc := true } }
    (by decide) (by decide) (by decide) (by decide) (by decide)

/-- Gate equation: dispatch on a destroyed table returns immediately with no
effect (helper for several claims). -/
theorem dispatch_destroyed_eq
    (cb : Table → List Nat → Int → Nat → Int) (crc : List Nat → Nat → Nat)
    (sec : List Nat) (r : Nat) (mt : Table) (hd : mt.destroyed = true) :
    mpegts_table_dispatch cb crc sec r mt = ⟨mt, none, false, false, false⟩ := by
  simp [mpegts_table_dispatch, hd]

/-- Gate equation: a stuffing section (`table_id 0x72`) never reaches the
callback. -/
theorem dispatch_stuffing_callbackArgs
    (cb : Table → List Nat → Int → Nat → Int) (crc : List Nat → Nat → Nat)
    (sec : List Nat) (r : Nat) (mt : Table)
    (hd : mt.destroyed = false) (h1 : sec.getD 0 0 = 0x72) :
    (mpegts_table_dispatch cb crc sec r mt).callbackArgs = none := by
  by_cases h2 : sectionLen sec = (r : Int) - 3
  · simp only [mpegts_table_dispatch, hd, Bool.false_eq_true, if_false,
      if_pos h1, if_neg (not_not_intro h2)]
  · simp only [mpegts_table_dispatch, hd, Bool.false_eq_true, if_false,
      if_pos h1, if_pos h2]

/-- Gate equation: when the CRC gate fires (CRC required and non-zero
checksum), the callback is not reached. -/
theorem dispatch_crcfail_callbackArgs
    (cb : Table → List Nat → Int → Nat → Int) (crc : List Nat → Nat → Nat)
    (sec : List Nat) (r : Nat) (mt : Table)
    (hd : mt.destroyed = false) (h1 : sec.getD 0 0 ≠ 0x72)
    (h2 : (mt.flags.crc && decide (crc sec r ≠ 0)) = true) :
    (mpegts_table_dispatch cb crc sec r mt).callbackArgs = none := by
  simp only [mpegts_table_dispatch, hd, Bool.false_eq_true, if_false,
    if_neg h1, if_pos h2]

/-- Gate equation: an incomplete section (`len < r - 3`) is dropped with no
effect. -/
theorem dispatch_lenshort_eq
    (cb : Table → List Nat → Int → Nat → Int) (crc : List Nat → Nat → Nat)
    (sec : List Nat) (r : Nat) (mt : Table)
    (hd : mt.destroyed = false) (h1 : sec.getD 0 0 ≠ 0x72)
    (h2 : (mt.flags.crc && decide (crc sec r ≠ 0)) = false)
    (h3 : sectionLen sec < (r : Int) - 3) :
    mpegts_table_dispatch cb crc sec r mt = ⟨mt, none, false, false, false⟩ := by
  simp only [mpegts_table_dispatch, hd, Bool.false_eq_true, if_false,
    if_neg h1, h2, if_pos h3]

/-- Gate equation: a section whose table id does not match the filter's
mask/pattern is silently dropped. -/
theorem dispatch_maskmiss_eq
    (cb : Table → List Nat → Int → Nat → Int) (crc : List Nat → Nat → Nat)
    (sec : List Nat) (r : Nat) (mt : Table)
    (hd : mt.destroyed = false) (h1 : sec.getD 0 0 ≠ 0x72)
    (h2 : (mt.flags.crc && decide (crc sec r ≠ 0)) = false)
    (h3 : ¬ sectionLen sec < (r : Int) - 3)
    (h4 : sec.getD 0 0 &&& mt.mask ≠ mt.table) :
    mpegts_table_dispatch cb crc sec r mt = ⟨mt, none, false, false, false⟩ := by
  simp only [mpegts_table_dispatch, hd, Bool.false_eq_true, if_false,
    if_neg h1, h2, if_neg h3, if_pos h4]

/-- Master equation: when every gate passes, dispatch invokes the callback
and its output is this explicit record. -/
theorem dispatch_passes
    (cb : Table → List Nat → Int → Nat → Int) (crc : List Nat → Nat → Nat)
    (sec : List Nat) (r : Nat) (mt : Table)
    (hd : mt.destroyed = false) (h1 : sec.getD 0 0 ≠ 0x72)
    (h2 : (mt.flags.crc && decide (crc sec r ≠ 0)) = false)
    (h3 : ¬ sectionLen sec < (r : Int) - 3)
    (h4 : sec.getD 0 0 &&& mt.mask = mt.table) :
    mpegts_table_dispatch cb crc sec r mt =
      (let len : Int := if mt.flags.crc then sectionLen sec - 4
                        else sectionLen sec
       let payload := if mt.flags.full then sec else sec.drop 3
       let plen : Int := if mt.flags.full then len + 3 else len
       let ret := cb mt payload plen (sec.getD 0 0)
       let mt' := if 0 ≤ ret then { mt with count := mt.count + 1 } else mt
       ⟨mt', some (payload, plen, sec.getD 0 0), false, false,
         ret = 0 && (mt'.flags.quickreq || mt'.flags.fastswitch)⟩) := by
  simp only [mpegts_table_dispatch, hd, Bool.false_eq_true, if_false,
    if_neg h1, h2, if_neg h3, if_neg (not_not_intro h4)]

/-- C5: whenever dispatch reaches the callback, with
`L = section_length - (4 if CRC validation was performed for this table)`,
the callback receives the full buffer and `L + 3` when `MT_FULL` is set, and
the buffer past the 3-byte header with length `L` otherwise; the parsed
table id (byte 0) is passed as the side-channel argument in both cases. -/
theorem dispatch_callback_args
    (cb : Table → List Nat → Int → Nat → Int) (crc : List Nat → Nat → Nat)
    (sec : List Nat) (r : Nat) (mt : Table) (p : List Nat) (l : Int) (t : Nat)
    (h : (mpegts_table_dispatch cb crc sec r mt).callbackArgs = some (p, l, t)) :
    t = sec.getD 0 0 ∧
    p = (if mt.flags.full then sec else sec.drop 3) ∧
    l = (if mt.flags.full
          then (if mt.flags.crc then sectionLen sec - 4 else sectionLen sec) + 3
          else (if mt.flags.crc then sectionLen sec - 4 else sectionLen sec)) := by
  cases hdb : mt.destroyed with
  | true =>
    rw [dispatch_destroyed_eq cb crc sec r mt hdb] at h
    exact Option.noConfusion h
  | false =>
    by_cases h1 : sec.getD 0 0 = 0x72
    · rw [dispatch_stuffing_callbackArgs cb crc sec r mt hdb h1] at h
      exact Option.noConfusion h
    · cases hcg : (mt.flags.crc && decide (crc sec r ≠ 0)) with
      | true =>
        rw [dispatch_crcfail_callbackArgs cb crc sec r mt hdb h1 hcg] at h
        exact Option.noConfusion h
      | false =>
        by_cases h3 : sectionLen sec < (r : Int) - 3
        · rw [dispatch_lenshort_eq cb crc sec r mt hdb h1 hcg h3] at h
          exact Option.noConfusion h
        · by_cases h4 : sec.getD 0 0 &&& mt.mask = mt.table
          · rw [dispatch_passes cb crc sec r mt hdb h1 hcg h3 h4] at h
            simp only [Option.some.injEq, Prod.mk.injEq] at h
            obtain ⟨hpay, hplen, htid⟩ := h
            exact ⟨htid.symm, hpay.symm, hplen.symm⟩
          · rw [dispatch_maskmiss_eq cb crc sec r mt hdb h1 hcg h3 h4] at h
            exact Option.noConfusion h

/-- Witness for `dispatch_callback_args` at a concrete section that reaches
the callback (no CRC flag, no `MT_FULL`). -/
theorem dispatch_callback_args_witness :
    (0 : Nat) = List.getD [0, 0, 2, 9, 9] 0 0 ∧
    [9, 9] = (if tSample.flags.full then [0, 0, 2, 9, 9]
              else List.drop 3 [0, 0, 2, 9, 9]) ∧
    (2 : Int) = (if tSample.flags.full
          then (if tSample.flags.crc then sectionLen [0, 0, 2, 9, 9] - 4
                else sectionLen [0, 0, 2, 9, 9]) + 3
          else (if tSample.flags.crc then sectionLen [0, 0, 2, 9, 9] - 4
                else sectionLen [0, 0, 2, 9, 9])) :=
  dispatch_callback_args cbZero crcOk [0, 0, 2, 9, 9] 5 tSample [9, 9] 2 0
    (by decide)

/-- C9: whenever dispatch invokes the callback: a negative return leaves
`mt_count` unchanged and never invokes the scan coordinator; a zero return
increments `mt_count` and invokes the scan coordinator exactly when the table
carries `MT_QUICKREQ` or `MT_FASTSWITCH`; a positive return increments
`mt_count` and never invokes the scan coordinator. -/
theorem dispatch_callback_return
    (cb : Table → List Nat → Int → Nat → Int) (crc : List Nat → Nat → Nat)
    (sec : List Nat) (r : Nat) (mt : Table) (p : List Nat) (l : Int) (t : Nat)
    (h : (mpegts_table_dispatch cb crc sec r mt).callbackArgs = some (p, l, t)) :
    (cb mt p l t < 0 →
      (mpegts_table_dispatch cb crc sec r mt).mt.count = mt.count ∧
      (mpegts_table_dispatch cb crc sec r mt).fastswitchCalled = false) ∧
    (cb mt p l t = 0 →
      (mpegts_table_dispatch cb crc sec r mt).mt.count = mt.count + 1 ∧
      (mpegts_table_dispatch cb crc sec r mt).fastswitchCalled
        = (mt.flags.quickreq || mt.flags.fastswitch)) ∧
    (0 < cb mt p l t →
      (mpegts_table_dispatch cb crc sec r mt).mt.count = mt.count + 1 ∧
      (mpegts_table_dispatch cb crc sec r mt).fastswitchCalled = false) := by
  cases hdb : mt.destroyed with
  | true =>
    rw [dispatch_destroyed_eq cb crc sec r mt hdb] at h
    exact Option.noConfusion h
  | false =>
    by_cases h1 : sec.getD 0 0 = 0x72
    · rw [dispatch_stuffing_callbackArgs cb crc sec r mt hdb h1] at h
      exact Option.noConfusion h
    · cases hcg : (mt.flags.crc && decide (crc sec r ≠ 0)) with
      | true =>
        rw [dispatch_crcfail_callbackArgs cb crc sec r mt hdb h1 hcg] at h
        exact Option.noConfusion h
      | false =>
        by_cases h3 : sectionLen sec < (r : Int) - 3
        · rw [dispatch_lenshort_eq cb crc sec r mt hdb h1 hcg h3] at h
          exact Option.noConfusion h
        · by_cases h4 : sec.getD 0 0 &&& mt.mask = mt.table
          · rw [dispatch_passes cb crc sec r mt hdb h1 hcg h3 h4] at h ⊢
            simp only [Option.some.injEq, Prod.mk.injEq] at h
            obtain ⟨hpay, hplen, htid⟩ := h
            dsimp only
            rw [hpay, hplen, htid]
            rcases lt_trichotomy (cb mt p l t) 0 with hr | hr | hr
            · exact ⟨fun _ => by
                  simp [show ¬ (0:Int) ≤ cb mt p l t from by omega,
                    show cb mt p l t ≠ 0 from by omega],
                fun hb => absurd hb (by omega),
                fun hc => absurd hc (by omega)⟩
            · exact ⟨fun ha => absurd ha (by omega),
                fun _ => by simp [hr],
                fun hc => absurd hc (by omega)⟩
            · exact ⟨fun ha => absurd ha (by omega),
                fun hb => absurd hb (by omega),
                fun _ => by
                  simp [show (0:Int) ≤ cb mt p l t from by omega,
                    show cb mt p l t ≠ 0 from by omega]⟩
          · rw [dispatch_maskmiss_eq cb crc sec r mt hdb h1 hcg h3 h4] at h
            exact Option.noConfusion h

/-- Witness for `dispatch_callback_return` with a callback returning 0 on a
table with no quick-required or fast-switch flag. -/
theorem dispatch_callback_return_witness :
    (cbZero tSample [9, 9] 2 0 < 0 →
      (mpegts_table_dispatch cbZero crcOk [0, 0, 2, 9, 9] 5 tSample).mt.count
        = tSample.count ∧
      (mpegts_table_dispatch cbZero crcOk [0, 0, 2, 9, 9] 5
        tSample).fastswitchCalled = false) ∧
    (cbZero tSample [9, 9] 2 0 = 0 →
      (mpegts_table_dispatch cbZero crcOk [0, 0, 2, 9, 9] 5 tSample).mt.count
        = tSample.count + 1 ∧
      (mpegts_table_dispatch cbZero crcOk [0, 0, 2, 9, 9] 5
        tSample).fastswitchCalled
        = (tSample.flags.quickreq || tSample.flags.fastswitch)) ∧
    (0 < cbZero tSample [9, 9] 2 0 →
      (mpegts_table_dispatch cbZero crcOk [0, 0, 2, 9, 9] 5 tSample).mt.count
        = tSample.count + 1 ∧
      (mpegts_table_dispatch cbZero crcOk [0, 0, 2, 9, 9] 5
        tSample).fastswitchCalled = false) :=
  dispatch_callback_return cbZero crcOk [0, 0, 2, 9, 9] 5 tSample [9, 9] 2 0
    (by decide)

/-- Per-table pass condition of the fastswitch walk, as a propositional
equivalence over the three booleans it reads. -/
theorem fastswitch_elem_iff (q w c : Bool) :
    ((if !q && !w then true else !(!c || w)) = true) ↔
      ((q = true ∨ w = true) → (c = true ∧ w = false)) := by
  cases q <;> cases w <;> cases c <;> decide

/-- C6: with the scan active, the coordinator signals completion exactly when
every live table carrying `MT_QUICKREQ` or currently working is complete and
idle; in particular, with two quick-required tables, completion fires only
when both are simultaneously complete and not working. -/
theorem fastswitch_iff_all_relevant_complete (mm : Mux)
    (h : mm.scanState = ScanState.active) :
    mpegts_table_fastswitch mm = true ↔
      ∀ mt ∈ mm.tables, (mt.flags.quickreq = true ∨ mt.working = true) →
        (mt.complete = true ∧ mt.working = false) := by
  simp only [mpegts_table_fastswitch, h]
  rw [if_neg (fun hne => hne rfl), List.all_eq_true]
  exact forall_congr' fun mt => imp_congr_right fun _ =>
    fastswitch_elem_iff mt.flags.quickreq mt.working mt.complete

/-- Witness for `fastswitch_iff_all_relevant_complete` on a concrete
two-quick-required-table mux where only one table is complete. -/
theorem fastswitch_iff_witness :
    muxTwoQuick.scanState = ScanState.active ∧
    (mpegts_table_fastswitch muxTwoQuick = true ↔
      ∀ mt ∈ muxTwoQuick.tables,
        (mt.flags.quickreq = true ∨ mt.working = true) →
          (mt.complete = true ∧ mt.working = false)) :=
  ⟨by decide, fastswitch_iff_all_relevant_complete muxTwoQuick (by decide)⟩

theorem containsPtr_eq_false (p : Nat) (ts : List Table)
    (h : ∀ t ∈ ts, t.ptr ≠ p) : containsPtr p ts = false := by
  induction ts with
  | nil => rfl
  | cons mt rest ih =>
    simp only [containsPtr, List.any_cons, Bool.or_eq_false_iff]
    constructor
    · simpa using h mt (by simp)
    · exact ih fun t ht => h t (by simp [ht])

theorem addScan_none_of_no_owner (mm : Mux) (a : AddArgs) (ts : List Table)
    (h : ∀ t ∈ ts, t.owner ≠ a.owner) : addScan mm a ts = none := by
  induction ts with
  | nil => rfl
  | cons mt rest ih =>
    simp only [addScan]
    rw [if_pos (h mt (by simp))]
    exact ih fun t ht => h t (by simp [ht])

theorem add_rebind_by_name_then_pid (mm : Mux) (O : Nat) (nm : String)
    (tid1 mask1 cb1 tid2 mask2 cb2 : Nat) (fl1 fl2 : Flags) (pid2 : Int)
    (hO : ∀ t ∈ mm.tables, t.owner ≠ O)
    (hfresh : ∀ t ∈ mm.tables, t.ptr ≠ mm.nextPtr) :
    (let mm1 := (mpegts_table_add mm ⟨tid1, mask1, cb1, O, nm, fl1, -1⟩).1
     let r2 := mpegts_table_add mm1 ⟨tid2, mask2, cb2, O, nm, fl2, pid2⟩
     (r2.1.tables.filter fun t => t.owner == O && t.name == nm) = [r2.2] ∧
     r2.2.pid = pid2 ∧ r2.2.callback = cb2 ∧ r2.2.table = tid2 ∧
     r2.1.tables.length = mm1.tables.length ∧
     r2.1.nextPtr = mm1.nextPtr ∧
     r2.1.events = mm1.events ++ [Event.openT r2.2.ptr true]) := by
  have hscan := addScan_none_of_no_owner mm ⟨tid1, mask1, cb1, O, nm, fl1, -1⟩
    mm.tables (by intro t ht; exact hO t ht)
  have hcontains := containsPtr_eq_false mm.nextPtr mm.tables hfresh
  have hfil : (mm.tables.filter fun t => t.owner == O && t.name == nm) = [] := by
    rw [List.filter_eq_nil_iff]
    intro t ht
    simp [hO t ht]
  simp only [mpegts_table_add, hscan, mm_open_table, hcontains, addScan]
  simp [hfil, updateByPtr, containsPtr, List.filter]

/-- Witness for `add_rebind_by_name_then_pid` on the empty registry. -/
theorem add_rebind_witness :
    (let mm1 := (mpegts_table_add muxEmpty
        ⟨0x40, 0xff, 7, 3, "X", Flags.clear, -1⟩).1
     let r2 := mpegts_table_add mm1 ⟨0x41, 0xff, 8, 3, "X", Flags.clear, 5⟩
     (r2.1.tables.filter fun t => t.owner == 3 && t.name == "X") = [r2.2] ∧
     r2.2.pid = 5 ∧ r2.2.callback = 8 ∧ r2.2.table = 0x41 ∧
     r2.1.tables.length = mm1.tables.length ∧
     r2.1.nextPtr = mm1.nextPtr ∧
     r2.1.events = mm1.events ++ [Event.openT r2.2.ptr true]) :=
  add_rebind_by_name_then_pid muxEmpty 3 "X" 0x40 0xff 7 0x41 0xff 8
    Flags.clear Flags.clear 5 (by simp [muxEmpty]) (by simp [muxEmpty])

theorem length_updateByPtr (p : Nat) (f : Table → Table) (ts : List Table) :
    (updateByPtr p f ts).length = ts.length := by
  induction ts with
  | nil => rfl
  | cons t ts ih =>
    simp only [updateByPtr]
    split <;> simp [ih]

theorem length_removeByPtr (p : Nat) (ts : List Table)
    (h : containsPtr p ts = true) :
    (removeByPtr p ts).length + 1 = ts.length := by
  induction ts with
  | nil => simp [containsPtr] at h
  | cons t ts ih =>
    simp only [removeByPtr]
    by_cases hp : t.ptr = p
    · simp [hp]
    · have hrest : containsPtr p ts = true := by
        simpa [containsPtr, hp] using h
      simp only [if_neg hp, List.length_cons]
      simp [ih hrest]

theorem check_open_table (mm : Mux) (mt : Table) (s : Bool)
    (h : mpegts_table_consistency_check mm = true) :
    mpegts_table_consistency_check (mm_open_table mm mt s) = true := by
  simp only [mpegts_table_consistency_check, beq_iff_eq] at h ⊢
  simp only [mm_open_table]
  by_cases hc : containsPtr mt.ptr mm.tables
  · simp [hc, length_updateByPtr, h]
  · simp [hc, h]

theorem check_close_table (mm : Mux) (p : Nat)
    (h : mpegts_table_consistency_check mm = true) :
    mpegts_table_consistency_check (mm_close_table mm p) = true := by
  simp only [mpegts_table_consistency_check, beq_iff_eq] at h ⊢
  simp only [mm_close_table]
  by_cases hc : containsPtr p mm.tables
  · have := length_removeByPtr p mm.tables hc
    simp [hc, h]
    omega
  · simp [hc, h]

theorem check_release (mm : Mux) (p : Nat)
    (h : mpegts_table_consistency_check mm = true) :
    mpegts_table_consistency_check (mpegts_table_release mm p) = true := by
  simpa [mpegts_table_release, mpegts_table_consistency_check] using h

theorem check_destroy (mm : Mux) (p : Nat)
    (h : mpegts_table_consistency_check mm = true) :
    mpegts_table_consistency_check (mpegts_table_destroy_ mm p) = true := by
  apply check_release
  apply check_close_table
  simpa [mpegts_table_consistency_check, length_updateByPtr] using h

theorem check_addScan (mm : Mux) (a : AddArgs) (ts : List Table)
    (mm' : Mux) (t : Table)
    (hs : addScan mm a ts = some (mm', t))
    (h : mpegts_table_consistency_check mm = true) :
    mpegts_table_consistency_check mm' = true := by
  induction ts generalizing mm' t with
  | nil => exact Option.noConfusion hs
  | cons mt rest ih =>
    simp only [addScan] at hs
    split_ifs at hs with h1 h2 h3 h4 h5 h6 h7 h8
    all_goals try exact ih mm' t hs
    all_goals obtain ⟨rfl, rfl⟩ : _ = mm' ∧ _ = t := by simpa using hs
    · exact check_open_table _ _ _ (by
        simpa [mpegts_table_consistency_check, length_updateByPtr] using h)
    · exact h
    · exact check_open_table _ _ _ h
    · exact h

theorem check_add (mm : Mux) (a : AddArgs)
    (h : mpegts_table_consistency_check mm = true) :
    mpegts_table_consistency_check (mpegts_table_add mm a).1 = true := by
  cases hs : addScan mm a mm.tables with
  | some r =>
    obtain ⟨mm', t⟩ := r
    simp only [mpegts_table_add, hs]
    exact check_addScan mm a mm.tables mm' t hs h
  | none =>
    simp only [mpegts_table_add, hs]
    exact check_open_table _ _ _
      (by simpa [mpegts_table_consistency_check] using h)

theorem check_drainDeferGo (fuel : Nat) (mm : Mux)
    (h : mpegts_table_consistency_check mm = true) :
    mpegts_table_consistency_check (drainDeferGo fuel mm) = true := by
  induction fuel generalizing mm with
  | zero => exact h
  | succ n ih =>
    cases hd : mm.deferTables with
    | nil => simpa [drainDeferGo, hd] using h
    | cons mt rest =>
      simp only [drainDeferGo, hd]
      apply ih
      apply check_release
      simpa [mpegts_table_consistency_check, length_updateByPtr] using h

theorem check_flushLiveGo (fuel : Nat) (mm : Mux)
    (h : mpegts_table_consistency_check mm = true) :
    mpegts_table_consistency_check (flushLiveGo fuel mm) = true := by
  induction fuel generalizing mm with
  | zero => exact h
  | succ n ih =>
    cases ht : mm.tables with
    | nil => simpa [flushLiveGo, ht] using h
    | cons mt rest =>
      simp only [flushLiveGo, ht]
      apply ih
      apply check_destroy
      simpa [mpegts_table_consistency_check, ht] using h

theorem check_applyOp (mm : Mux) (op : Op)
    (h : mpegts_table_consistency_check mm = true) :
    mpegts_table_consistency_check (applyOp mm op) = true := by
  cases op with
  | add a => exact check_add mm a h
  | destroy p =>
    simp only [applyOp, mpegts_table_destroy]
    exact check_destroy mm p h
  | flushAll =>
    simp only [applyOp, mpegts_table_flush_all]
    exact check_flushLiveGo _ _ (check_drainDeferGo _ _ h)

/-- C2: starting from a consistent registry, after any sequence of `add`,
`destroy` and `flush_all` operations the cached `mm_num_tables` still equals
the live-list length: the debug consistency check never fires. -/
theorem consistency_check_never_fires (mm : Mux) (ops : List Op)
    (h : mpegts_table_consistency_check mm = true) :
    mpegts_table_consistency_check (applyOps mm ops) = true := by
  induction ops generalizing mm with
  | nil => exact h
  | cons op ops ih => exact ih _ (check_applyOp mm op h)

/-- Witness for `consistency_check_never_fires` on a concrete op sequence
with two adds, a destroy and a flush. -/
theorem consistency_check_never_fires_witness :
    mpegts_table_consistency_check muxEmpty = true ∧
    mpegts_table_consistency_check (applyOps muxEmpty
      [Op.add ⟨0x40, 0xff, 7, 3, "X", Flags.clear, 5⟩,
       Op.add ⟨0x41, 0xff, 8, 4, "Y", Flags.clear, 6⟩,
       Op.destroy 0, Op.flushAll]) = true :=
  ⟨by decide, consistency_check_never_fires muxEmpty
    [Op.add ⟨0x40, 0xff, 7, 3, "X", Flags.clear, 5⟩,
     Op.add ⟨0x41, 0xff, 8, 4, "Y", Flags.clear, 6⟩,
     Op.destroy 0, Op.flushAll] (by decide)⟩

theorem ptrMap_updateByPtr (p : Nat) (f : Table → Table) (ts : List Table)
    (hf : ∀ t, (f t).ptr = t.ptr) :
    (updateByPtr p f ts).map (fun t => t.ptr) = ts.map (fun t => t.ptr) := by
  induction ts with
  | nil => rfl
  | cons t ts ih =>
    simp only [updateByPtr]
    split <;> simp [ih, hf]

theorem destroyEvents_congr (ts us : List Table)
    (h : ts.map (fun t => t.ptr) = us.map (fun t => t.ptr)) :
    destroyEvents ts = destroyEvents us := by
  induction ts generalizing us with
  | nil => cases us <;> simp_all [destroyEvents]
  | cons t ts ih =>
    cases us with
    | nil => simp at h
    | cons u us =>
      simp only [List.map_cons, List.cons.injEq] at h
      simp [destroyEvents, h.1]
      have := ih us h.2
      simpa [destroyEvents] using this

theorem destroy_head_eq (mm : Mux) (mt : Table) (rest : List Table)
    (hmm : mm.tables = mt :: rest) :
    mpegts_table_destroy_ mm mt.ptr =
      { mm with tables := rest, numTables := mm.numTables - 1,
                events := mm.events
                  ++ [Event.closeT mt.ptr, Event.release mt.ptr] } := by
  simp [mpegts_table_destroy_, mm_close_table, mpegts_table_release,
    containsPtr, updateByPtr, removeByPtr, hmm]

theorem flushLiveGo_spec (fuel : Nat) (mm : Mux)
    (hf : mm.tables.length = fuel) :
    flushLiveGo fuel mm =
      { mm with tables := [],
                numTables := mm.numTables - mm.tables.length,
                events := mm.events ++ destroyEvents mm.tables } := by
  induction fuel generalizing mm with
  | zero =>
    obtain ⟨tb, num, df, sc, np, ev⟩ := mm
    have hnil : tb = [] := List.length_eq_zero.mp hf
    subst hnil
    simp [flushLiveGo, destroyEvents]
  | succ n ih =>
    obtain ⟨tb, num, df, sc, np, ev⟩ := mm
    cases tb with
    | nil => simp at hf
    | cons mt rest =>
      simp only [flushLiveGo]
      have hd := destroy_head_eq
        ⟨({ mt with flags := { mt.flags with deferFlag := false } } : Table)
          :: rest, num, df, sc, np, ev⟩
        ({ mt with flags := { mt.flags with deferFlag := false } } : Table)
        rest rfl
      have hptr : ({ mt with flags :=
          { mt.flags with deferFlag := false } } : Table).ptr = mt.ptr := rfl
      rw [hptr] at hd
      rw [hd]
      have hlen : (⟨rest, num - 1, df, sc, np,
          ev ++ [Event.closeT mt.ptr, Event.release mt.ptr]⟩ : Mux).tables.length
            = n := by
        simp at hf
        simpa using hf
      rw [ih _ hlen]
      simp only [Mux.mk.injEq, List.length_cons, true_and, and_true]
      constructor
      · push_cast
        ring
      · simp [destroyEvents]

theorem drainDeferGo_spec (fuel : Nat) (mm : Mux)
    (hf : mm.deferTables.length = fuel) :
    (drainDeferGo fuel mm).deferTables = [] ∧
    (drainDeferGo fuel mm).numTables = mm.numTables ∧
    (drainDeferGo fuel mm).tables.map (fun t => t.ptr)
      = mm.tables.map (fun t => t.ptr) ∧
    (drainDeferGo fuel mm).events
      = mm.events ++ mm.deferTables.map (fun t => Event.release t.ptr) := by
  induction fuel generalizing mm with
  | zero =>
    have hnil : mm.deferTables = [] := List.length_eq_zero.mp hf
    simp [drainDeferGo, hnil]
  | succ n ih =>
    cases hd : mm.deferTables with
    | nil => simp [hd] at hf
    | cons mt rest =>
      simp only [drainDeferGo, hd, mpegts_table_release]
      obtain ⟨ih1, ih2, ih3, ih4⟩ := ih
        ⟨updateByPtr mt.ptr (fun t => { t with deferCmd := 0 }) mm.tables,
         mm.numTables, rest, mm.scanState, mm.nextPtr,
         mm.events ++ [Event.release mt.ptr]⟩
        (by simp [hd] at hf; simpa using hf)
      refine ⟨ih1, ih2, ?_, ?_⟩
      · rw [ih3]
        exact ptrMap_updateByPtr _ _ _ (fun t => rfl)
      · rw [ih4]
        simp [hd]

/-- C8: from a consistent registry, `flush_all` empties the live list, zeroes
the counter and empties the deferred queue; the drained deferred entries are
released directly (no `close_table` call), while each remaining live table
goes through the destroy path, which closes the hardware filter and then
releases. -/
theorem flush_all_postcondition (mm : Mux)
    (h : mpegts_table_consistency_check mm = true) :
    (mpegts_table_flush_all mm).tables = [] ∧
    (mpegts_table_flush_all mm).numTables = 0 ∧
    (mpegts_table_flush_all mm).deferTables = [] ∧
    (mpegts_table_flush_all mm).events
      = mm.events ++ mm.deferTables.map (fun t => Event.release t.ptr)
        ++ destroyEvents mm.tables := by
  obtain ⟨hdef, hnum, hmap, hev⟩ :=
    drainDeferGo_spec mm.deferTables.length mm rfl
  have hspec := flushLiveGo_spec (drainDefer mm).tables.length (drainDefer mm) rfl
  have hfa : mpegts_table_flush_all mm
      = flushLiveGo (drainDefer mm).tables.length (drainDefer mm) := rfl
  have hlen : (drainDefer mm).tables.length = mm.tables.length := by
    have := congrArg List.length hmap
    simpa using this
  have hnum0 : mm.numTables = (mm.tables.length : Int) := by
    simpa [mpegts_table_consistency_check, beq_iff_eq] using h
  refine ⟨?_, ?_, ?_, ?_⟩
  · rw [hfa, hspec]
  · rw [hfa, hspec]
    simp only [drainDefer] at hnum hlen ⊢
    rw [hnum, hlen, hnum0]
    ring
  · rw [hfa, hspec]
    simpa [drainDefer] using hdef
  · rw [hfa, hspec]
    simp only [drainDefer] at hev hmap ⊢
    rw [hev, destroyEvents_congr _ _ hmap]

/-- Witness for `flush_all_postcondition` on a registry with one live table
and one deferred entry. -/
theorem flush_all_postcondition_witness :
    mpegts_table_consistency_check muxFlushEx = true ∧
    ((mpegts_table_flush_all muxFlushEx).tables = [] ∧
     (mpegts_table_flush_all muxFlushEx).numTables = 0 ∧
     (mpegts_table_flush_all muxFlushEx).deferTables = [] ∧
     (mpegts_table_flush_all muxFlushEx).events
       = muxFlushEx.events
         ++ muxFlushEx.deferTables.map (fun t => Event.release t.ptr)
         ++ destroyEvents muxFlushEx.tables) :=
  ⟨by decide, flush_all_postcondition muxFlushEx (by decide)⟩

theorem conflict_sub_iff_left (s t : Table) (b : Bool) :
    conflict (if b then { s with subscribed := true } else s) t ↔
      conflict s t := by
  cases b <;> simp [conflict]

theorem conflict_sub_iff_right (s t : Table) (b : Bool) :
    conflict s (if b then { t with subscribed := true } else t) ↔
      conflict s t := by
  cases b <;> simp [conflict]

theorem mem_updateByPtr (p : Nat) (f : Table → Table) (ts : List Table)
    (x : Table) (hx : x ∈ updateByPtr p f ts) :
    x ∈ ts ∨ ∃ y, y ∈ ts ∧ x = f y := by
  induction ts with
  | nil => simp [updateByPtr] at hx
  | cons t ts ih =>
    simp only [updateByPtr] at hx
    split at hx
    · rcases List.mem_cons.mp hx with h | h
      · exact Or.inr ⟨t, by simp, h⟩
      · exact Or.inl (by simp [h])
    · rcases List.mem_cons.mp hx with h | h
      · exact Or.inl (by simp [h])
      · rcases ih h with h' | ⟨y, hy, hxy⟩
        · exact Or.inl (by simp [h'])
        · exact Or.inr ⟨y, by simp [hy], hxy⟩

theorem pairwise_noConflict_updateByPtr (p : Nat) (b : Bool) (ts : List Table)
    (h : ts.Pairwise fun s t => ¬ conflict s t) :
    (updateByPtr p
      (fun t => if b then { t with subscribed := true } else t) ts).Pairwise
      (fun s t => ¬ conflict s t) := by
  induction ts with
  | nil => exact List.Pairwise.nil
  | cons t ts ih =>
    cases h with
    | cons hhead htail =>
      simp only [updateByPtr]
      split
      · refine List.Pairwise.cons (fun x hx => ?_) htail
        rw [conflict_sub_iff_left]
        exact hhead x hx
      · refine List.Pairwise.cons (fun x hx => ?_) (ih htail)
        rcases mem_updateByPtr _ _ _ x hx with hmem | ⟨y, hy, rfl⟩
        · exact hhead x hmem
        · rw [conflict_sub_iff_right]
          exact hhead y hy

theorem containsPtr_of_mem (mt : Table) (ts : List Table) (h : mt ∈ ts) :
    containsPtr mt.ptr ts = true := by
  simp only [containsPtr, List.any_eq_true]
  exact ⟨mt, h, by simp⟩

theorem conflictFree_open_table (mm : Mux) (mt : Table) (s : Bool)
    (hc : containsPtr mt.ptr mm.tables = true)
    (hcf : conflictFree mm) : conflictFree (mm_open_table mm mt s) := by
  simp only [mm_open_table, conflictFree, hc, if_true]
  exact pairwise_noConflict_updateByPtr mt.ptr s mm.tables hcf

theorem addScan_conflictFree (mm : Mux) (a : AddArgs) (ts : List Table)
    (hsub : ∀ x ∈ ts, x ∈ mm.tables)
    (hnr : noUnboundMatch mm a)
    (hcf : conflictFree mm)
    (mm' : Mux) (t : Table)
    (hs : addScan mm a ts = some (mm', t)) :
    conflictFree mm' := by
  induction ts generalizing mm' t with
  | nil => exact Option.noConfusion hs
  | cons mt rest ih =>
    simp only [addScan] at hs
    split_ifs at hs with h1 h2 h3 h4 h5 h6 h7 h8
    all_goals try exact ih (fun x hx => hsub x (by simp [hx])) mm' t hs
    all_goals obtain ⟨rfl, rfl⟩ : _ = mm' ∧ _ = t := by simpa using hs
    · exact absurd ⟨not_ne_iff.mp h1, h2, not_ne_iff.mp h3⟩
        (hnr mt (hsub mt (by simp)))
    · exact hcf
    · exact conflictFree_open_table mm mt true
        (containsPtr_of_mem mt mm.tables (hsub mt (by simp))) hcf
    · exact hcf

theorem addScan_none_facts (mm : Mux) (a : AddArgs) (ts : List Table)
    (hs : addScan mm a ts = none) :
    ∀ t ∈ ts, t.owner = a.owner →
      (¬ t.pid < 0 → 0 ≤ a.pid →
        ¬ (t.pid = a.pid ∧ t.callback = a.callback)) := by
  induction ts with
  | nil => simp
  | cons mt rest ih =>
    intro t ht howner hpid hapid hcontra
    rcases List.mem_cons.mp ht with rfl | hmem
    · have hne : addScan mm a (t :: rest) ≠ none := by
        simp only [addScan]
        rw [if_neg (fun hne => hne howner), if_neg hpid, if_pos hapid,
          if_neg (not_not_intro hcontra.1), if_neg (not_not_intro hcontra.2)]
        simp
      exact hne hs
    · have hrest : addScan mm a rest = none := by
        by_cases h1 : mt.owner ≠ a.owner
        · simpa only [addScan, if_pos h1] using hs
        · simp only [addScan, if_neg h1] at hs
          by_cases h2 : mt.pid < 0
          · simp only [if_pos h2] at hs
            by_cases h3 : mt.name ≠ a.name
            · simpa only [if_pos h3] using hs
            · simp only [if_neg h3] at hs
              exact Option.noConfusion hs
          · simp only [if_neg h2] at hs
            by_cases h4 : 0 ≤ a.pid
            · simp only [if_pos h4] at hs
              by_cases h5 : mt.pid ≠ a.pid
              · simpa only [if_pos h5] using hs
              · simp only [if_neg h5] at hs
                by_cases h6 : mt.callback ≠ a.callback
                · simpa only [if_pos h6] using hs
                · simp only [if_neg h6] at hs
                  exact Option.noConfusion hs
            · simp only [if_neg h4] at hs
              by_cases h7 : mt.name ≠ a.name
              · simpa only [if_pos h7] using hs
              · simp only [if_neg h7] at hs
                split_ifs at hs
      exact ih hrest t hmem howner hpid hapid hcontra

theorem conflictFree_add (mm : Mux) (a : AddArgs)
    (hnr : noUnboundMatch mm a) (hcf : conflictFree mm) :
    conflictFree (mpegts_table_add mm a).1 := by
  cases hs : addScan mm a mm.tables with
  | some r =>
    obtain ⟨mm', t⟩ := r
    simp only [mpegts_table_add, hs]
    exact addScan_conflictFree mm a mm.tables (fun x hx => hx) hnr hcf mm' t hs
  | none =>
    have hfacts := addScan_none_facts mm a mm.tables hs
    have hkey : ∀ (s : Table), s.owner = a.owner → s.pid = a.pid →
        s.callback = a.callback → s.name = a.name →
        ∀ x ∈ mm.tables, ¬ conflict s x := by
      intro s hso hsp hsc hsn x hx hconf
      obtain ⟨howner, hdisj⟩ := hconf
      rcases hdisj with ⟨hap, hpeq, hcb⟩ | ⟨hap, hxp, hname⟩
      · refine hfacts x hx (by rw [← howner, hso]) (by omega) (by omega)
          ⟨by rw [← hpeq, hsp], by rw [← hcb, hsc]⟩
      · exact hnr x hx ⟨by rw [← howner, hso], hxp, by rw [← hname, hsn]⟩
    simp only [mpegts_table_add, hs, mm_open_table]
    by_cases hc : containsPtr mm.nextPtr mm.tables
    · simp only [hc, if_true]
      exact pairwise_noConflict_updateByPtr _ _ mm.tables hcf
    · simp only [hc, if_false, Bool.false_eq_true]
      refine List.Pairwise.cons (fun x hx => hkey _ ?_ ?_ ?_ ?_ x hx) hcf
      all_goals simp only [apply_ite Table.owner, apply_ite Table.pid,
        apply_ite Table.callback, apply_ite Table.name, ite_self]

/-- C7 counterexample: two `add` calls with the same owner and the same
`pid = 5` but different callbacks leave two live tables for that
`(owner, pid)` pair, refuting the claim as stated. -/
theorem add_same_owner_pid_two_tables :
    ((mpegts_table_add (mpegts_table_add muxEmpty
        ⟨0x40, 0xff, 0, 9, "A", Flags.clear, 5⟩).1
        ⟨0x40, 0xff, 1, 9, "B", Flags.clear, 5⟩).1.tables.filter
          (fun t => t.owner == 9 && t.pid == 5)).length = 2 := by
  decide

/-- C7 (amended): after any sequence of `add` calls none of which meets an
unbound same-owner same-name rebind target, the registry keeps at most one
live table per `(owner, pid, callback)` triple with `pid ≥ 0` and at most one
per `(owner, name)` pair with both entries unbound: no two live tables
conflict. -/
theorem add_unique_triple_invariant (mm : Mux) (as : List AddArgs)
    (hcf : conflictFree mm) (hnr : NoRebindSeq mm as) :
    conflictFree (applyAdds mm as) := by
  induction as generalizing mm with
  | nil => exact hcf
  | cons a rest ih =>
    exact ih (mpegts_table_add mm a).1 (conflictFree_add mm a hnr.1 hcf) hnr.2

/-- Witness for `add_unique_triple_invariant`: the same `(owner, pid,
callback)` registration issued twice on the empty registry. -/
theorem add_unique_triple_invariant_witness :
    conflictFree muxEmpty ∧
    NoRebindSeq muxEmpty [⟨0x40, 0xff, 7, 3, "X", Flags.clear, 5⟩,
                          ⟨0x40, 0xff, 7, 3, "X", Flags.clear, 5⟩] ∧
    conflictFree (applyAdds muxEmpty
      [⟨0x40, 0xff, 7, 3, "X", Flags.clear, 5⟩,
       ⟨0x40, 0xff, 7, 3, "X", Flags.clear, 5⟩]) :=
  ⟨List.Pairwise.nil,
   ⟨by simp [noUnboundMatch, muxEmpty],
    by simp [NoRebindSeq, noUnboundMatch]; decide⟩,
   add_unique_triple_invariant muxEmpty _ List.Pairwise.nil
     ⟨by simp [noUnboundMatch, muxEmpty],
      by simp [NoRebindSeq, noUnboundMatch]; decide⟩⟩

end MpegtsTable
